import Mathlib

/-!
Verification of the valijson graph parser and graph adapter.

The development embeds, in Lean, the data model and operations of:
  * `include/valijson/graph/graph.hpp`         (GraphNode, Graph)
  * `include/valijson/graph/graph_parser.hpp`  (GraphParser)
  * `include/valijson/adapters/graph_adapter.hpp` (JsonGraphValue and iterators)

Source documents (the external adapter view consumed by the parser) are
modelled as ordered JSON trees.  The shared-pointer node graph built by the
parser is modelled as an arena: nodes are addressed by natural-number ids,
`boost::weak_ptr` references become ids, and in-place mutation becomes an
update of the arena entry.  Machine integers (`int64_t`) are modelled as
`Int` (the parser only copies them; no arithmetic is performed), and the
payload of a C++ `double` is carried as an uninterpreted `Nat` tag (the code
only stores and retrieves doubles, never computes with them).
-/

/-- A JSON document as seen through a read-only document adapter:
object members and array elements are kept in document order. -/
inductive JsonValue : Type where
  | null : JsonValue
  | bool (b : Bool) : JsonValue
  | int (n : Int) : JsonValue
  | double (d : Nat) : JsonValue
  | str (s : String) : JsonValue
  | arr (xs : List JsonValue) : JsonValue
  | obj (ms : List (String × JsonValue)) : JsonValue

mutual

/-- Size measure of a document (1 per node, 1 extra per container slot). -/
def jsize : JsonValue → Nat
  | .null => 1
  | .bool _ => 1
  | .int _ => 1
  | .double _ => 1
  | .str _ => 1
  | .arr xs => 1 + jsizeElems xs
  | .obj ms => 1 + jsizeMembers ms

/-- Size measure of an array-element list. -/
def jsizeElems : List JsonValue → Nat
  | [] => 0
  | v :: t => 1 + jsize v + jsizeElems t

/-- Size measure of an object-member list. -/
def jsizeMembers : List (String × JsonValue) → Nat
  | [] => 0
  | (_, v) :: t => 1 + jsize v + jsizeMembers t

end

example : jsize (.obj [("a", .null)]) = 3 := rfl

/-- Error conditions surfaced by the graph components.  All of them are
`std::runtime_error` exceptions in the C++ code; the constructors record the
distinct failure causes named by the spec's error taxonomy (§7).
`unresolvedReferenceCycle` is part of that taxonomy but, as the theorems
below show, is never actually produced by the code. -/
inductive Fault : Type where
  | malformedReference : Fault
  | unresolvedReferenceCycle : Fault
  | danglingReference : Fault
  | notImplemented : Fault
  | pointerResolution : Fault
deriving DecidableEq, Repr

/-- Result of a modelled operation: a value, a thrown fault, or exhaustion of
the structural fuel used to model the C++ recursion/iteration. -/
inductive Res (α : Type) : Type where
  | ok (a : α) : Res α
  | fault (f : Fault) : Res α
  | timeout : Res α
deriving DecidableEq, Repr

/-- The value held by a `GraphNode` (graph.hpp).  `empty` is the
`boost::none` state of the `boost::optional<GraphValue>` member; `ref` is a
`Reference` (a `boost::weak_ptr`, modelled as an arena id); `obj` is
`GraphNode::Object`, a `std::map` ordered by key, kept here as a
key-sorted association list. -/
inductive GraphValue : Type where
  | empty : GraphValue
  | arr (xs : List Nat) : GraphValue
  | bool (b : Bool) : GraphValue
  | double (d : Nat) : GraphValue
  | int (n : Int) : GraphValue
  | obj (ms : List (String × Nat)) : GraphValue
  | ref (target : Nat) : GraphValue
  | str (s : String) : GraphValue
deriving DecidableEq, Repr

/-- Parser state: the arena of graph nodes (node id = list index; allocation
appends) together with the `resolvedNodes` map from canonical paths to node
ids (`std::map<std::string, boost::weak_ptr<GraphNode>>`). -/
structure PState : Type where
  nodes : List GraphValue
  resolved : List (String × Nat)
deriving DecidableEq, Repr

/-- Allocate a fresh graph node holding `v`; returns its id. -/
def alloc (v : GraphValue) (st : PState) : Nat × PState :=
  (st.nodes.length, { st with nodes := st.nodes ++ [v] })

/-- Overwrite the node with id `nid` (the in-place population of a
placeholder node). -/
def setNode (nid : Nat) (v : GraphValue) (st : PState) : PState :=
  { st with nodes := st.nodes.set nid v }

/-- `resolvedNodes.find(path)`. -/
def lookupResolved (st : PState) (p : String) : Option Nat :=
  List.lookup p st.resolved

/-- `resolvedNodes.insert(value_type(path, node))`: like `std::map::insert`,
a no-op when the key is already present. -/
def insertResolved (p : String) (nid : Nat) (st : PState) : PState :=
  if (List.lookup p st.resolved).isSome then st
  else { st with resolved := (p, nid) :: st.resolved }

/-- `std::set<std::string>::insert`. -/
def setInsert (p : String) (l : List String) : List String :=
  if l.contains p then l else p :: l

/-- Register an already-resolved node id under every path collected in the
`untypedReferences` set (graph_parser.hpp lines 135-138 and 165-167). -/
def propagate (untyped : List String) (nid : Nat) (st : PState) : PState :=
  untyped.foldl (fun acc p => insertResolved p nid acc) st

/-- First object member with the given key, as `Object::find` on the
document adapter's object view. -/
def assocFind (k : String) : List (String × JsonValue) → Option JsonValue
  | [] => none
  | (k', v) :: t => if k = k' then some v else assocFind k t

/-- `GraphParser::parseJsonReference`: if the node is an object with a
member named `$ref`, return its string value; throw when the `$ref` value is
not a string (graph_parser.hpp lines 230-250). -/
def parseJsonReference : JsonValue → Res (Option String)
  | .obj ms =>
      match assocFind "$ref" ms with
      | some (.str s) => .ok (some s)
      | some _ => .fault .malformedReference
      | none => .ok none
  | _ => .ok none

/-- Modelled from the spec: `internal::json_reference::getJsonReferencePointer`
(file `include/valijson/internal/json_reference.hpp`, not present in the
sources).  Per §6 of the spec, only same-document fragment pointers of the
form `#/seg/seg...` are resolved; anything else (cross-document URIs) is an
explicit limitation and faults. -/
def getJsonReferencePointer (s : String) : Res String :=
  match s.data with
  | c1 :: c2 :: rest =>
      if c1 = '#' ∧ c2 = '/' then .ok (String.mk ('/' :: rest))
      else .fault .notImplemented
  | _ => .fault .notImplemented

/-- Split the character list of a JSON Pointer body on `/`. -/
def splitSlash : List Char → List (List Char)
  | [] => [[]]
  | c :: t =>
      if c = '/' then [] :: splitSlash t
      else
        match splitSlash t with
        | [] => [[c]]
        | s :: rest => (c :: s) :: rest

/-- Parse an unsigned decimal array index. -/
def digitsToNat : List Char → Option Nat
  | [] => none
  | cs => go cs 0
where
  go : List Char → Nat → Option Nat
    | [], acc => some acc
    | c :: t, acc =>
        if c.isDigit then go t (acc * 10 + (c.toNat - '0'.toNat)) else none

/-- Walk a document along a list of pointer segments. -/
def resolveSegs : JsonValue → List (List Char) → Res JsonValue
  | v, [] => .ok v
  | .obj ms, seg :: rest =>
      match assocFind (String.mk seg) ms with
      | some c => resolveSegs c rest
      | none => .fault .pointerResolution
  | .arr xs, seg :: rest =>
      match digitsToNat seg with
      | some i =>
          match xs[i]? with
          | some c => resolveSegs c rest
          | none => .fault .pointerResolution
      | none => .fault .pointerResolution
  | _, _ :: _ => .fault .pointerResolution

/-- Modelled from the spec: `internal::json_pointer::resolveJsonPointer`
(file `include/valijson/internal/json_pointer.hpp`, not present in the
sources).  Per §6 of the spec: `/`-delimited segments, array segments are
unsigned decimal indices, object segments are literal member names, no
`~0`/`~1` decoding.  The empty pointer denotes the node itself; resolution
failure is a fault (a thrown exception). -/
def resolveJsonPointer (v : JsonValue) (p : String) : Res JsonValue :=
  match p.data with
  | [] => .ok v
  | c :: rest =>
      if c = '/' then resolveSegs v (splitSlash rest)
      else .fault .pointerResolution

/-- Lexicographic comparison of character lists (the `std::less` order that
`std::map<std::string, ...>` sorts by). -/
def charsLt : List Char → List Char → Bool
  | [], [] => false
  | [], _ :: _ => true
  | _ :: _, [] => false
  | a :: s, b :: t =>
      if a.toNat < b.toNat then true
      else if a.toNat = b.toNat then charsLt s t
      else false

/-- Lexicographic string comparison. -/
def strLt (a b : String) : Bool := charsLt a.data b.data

/-- Insert-or-assign into a `GraphNode::Object` (`std::map`), keeping the
association list sorted by key: models `obj[propertyName] = newNode`. -/
def objInsert (k : String) (n : Nat) : List (String × Nat) → List (String × Nat)
  | [] => [(k, n)]
  | (k', n') :: t =>
      if strLt k k' then (k, n) :: (k', n') :: t
      else if k = k' then (k, n) :: t
      else (k', n') :: objInsert k n t

/-- The `while (jsonReference)` loop of `GraphParser::parseNode`
(graph_parser.hpp lines 121-151).  The loop variable `jsonReference` is
assigned once, before the loop, and never updated inside it, so every
iteration re-derives the same pointer from the same string `s`; the loop can
only exit through the memoisation hit (returning a fresh reference node) or
through a thrown fault.  Note that the pointer is resolved against
`currentNode.top()` — the node currently at the top of the `currentNode`
stack — not against the document root. -/
def refLoop (s : String) (top : JsonValue) (untyped : List String)
    (st : PState) : Nat → Res (Nat × PState)
  | 0 => .timeout
  | gas + 1 =>
      match getJsonReferencePointer s with
      | .fault f => .fault f
      | .timeout => .timeout
      | .ok p =>
          match lookupResolved st p with
          | some nid =>
              let st1 := propagate untyped nid st
              let (rid, st2) := alloc (.ref nid) st1
              .ok (rid, st2)
          | none =>
              let untyped1 := setInsert p untyped
              match resolveJsonPointer top p with
              | .fault f => .fault f
              | .timeout => .timeout
              | .ok top2 => refLoop s top2 untyped1 st gas

mutual

/-- `GraphParser::parseNode` (graph_parser.hpp lines 91-170): memoisation
check, `$ref` detection, reference-chasing loop, and placeholder creation
followed by in-place population.  When the initial `parseJsonReference`
finds no reference, the `untypedReferences` set is empty, so the final
propagation loop (lines 163-167) is a no-op. -/
def parseNode (root start : JsonValue) (path : String) (st : PState) :
    Nat → Res (Nat × PState)
  | 0 => .timeout
  | gas + 1 =>
      match lookupResolved st path with
      | some nid => .ok (nid, st)
      | none =>
          match parseJsonReference start with
          | .fault f => .fault f
          | .timeout => .timeout
          | .ok (some s) => refLoop s start [] st gas
          | .ok none =>
              let (nid, st1) := alloc .empty st
              let st2 := insertResolved path nid st1
              match parseNodeInto nid root start path st2 gas with
              | .ok st3 => .ok (nid, st3)
              | .fault f => .fault f
              | .timeout => .timeout

/-- `GraphParser::parseNodeInto` (graph_parser.hpp lines 172-221): populate
the placeholder node `nid` in place from the document node `cur`.  A node
that is none of object/array/string/bool/integer/double (i.e. JSON null)
matches no branch and the placeholder stays empty. -/
def parseNodeInto (nid : Nat) (root cur : JsonValue) (path : String)
    (st : PState) : Nat → Res PState
  | 0 => .timeout
  | gas + 1 =>
      match cur with
      | .obj ms =>
          match parseMembers root ms path [] st gas with
          | .ok (o, st') => .ok (setNode nid (.obj o) st')
          | .fault f => .fault f
          | .timeout => .timeout
      | .arr xs =>
          match parseElems root xs 0 path [] st gas with
          | .ok (ids, st') => .ok (setNode nid (.arr ids) st')
          | .fault f => .fault f
          | .timeout => .timeout
      | .str s => .ok (setNode nid (.str s) st)
      | .bool b => .ok (setNode nid (.bool b) st)
      | .int n => .ok (setNode nid (.int n) st)
      | .double d => .ok (setNode nid (.double d) st)
      | .null => .ok st

/-- The `BOOST_FOREACH` over object members in `parseNodeInto`: recurse on
each member in document order with path `path + "/" + key` and assign the
result into the `GraphNode::Object` map. -/
def parseMembers (root : JsonValue) (ms : List (String × JsonValue))
    (path : String) (acc : List (String × Nat)) (st : PState) :
    Nat → Res (List (String × Nat) × PState)
  | 0 => .timeout
  | gas + 1 =>
      match ms with
      | [] => .ok (acc, st)
      | (k, c) :: rest =>
          match parseNode root c (path ++ "/" ++ k) st gas with
          | .ok (n, st') => parseMembers root rest path (objInsert k n acc) st' gas
          | .fault f => .fault f
          | .timeout => .timeout

/-- The `BOOST_FOREACH` over array elements in `parseNodeInto`: recurse on
each element with path `path + "/" + index` and `push_back` the result. -/
def parseElems (root : JsonValue) (xs : List JsonValue) (i : Nat)
    (path : String) (acc : List Nat) (st : PState) :
    Nat → Res (List Nat × PState)
  | 0 => .timeout
  | gas + 1 =>
      match xs with
      | [] => .ok (acc, st)
      | c :: rest =>
          match parseNode root c (path ++ "/" ++ toString i) st gas with
          | .ok (n, st') => parseElems root rest (i + 1) path (acc ++ [n]) st' gas
          | .fault f => .fault f
          | .timeout => .timeout

end

/-- `GraphParser::parse` (graph_parser.hpp lines 23-30), up to the final
`graph.setRootNode(graphNode)` call.  `Graph` (graph.hpp lines 336-352)
declares no `setRootNode` member, so that call has nowhere to deliver its
result; the returned pair is the root node id and the final arena. -/
def parseDocument (doc : JsonValue) (gas : Nat) : Res (Nat × PState) :=
  parseNode doc doc "" ⟨[], []⟩ gas

example :
    parseDocument (.obj [("a", .int 3)]) 9 =
      .ok (0, ⟨[.obj [("a", 1)], .int 3], [("/a", 1), ("", 0)]⟩) := rfl

/-- `GraphNode::isEmpty`: the `boost::optional` holds nothing. -/
def GraphValue.isEmpty : GraphValue → Bool
  | .empty => true
  | _ => false

/-- `GraphNode::isReference` (graph.hpp lines 77-84). -/
def GraphValue.isReference : GraphValue → Bool
  | .ref _ => true
  | _ => false

/-- `GraphNode::setArray`. -/
def GraphValue.setArray (v : GraphValue) (xs : List Nat) : GraphValue := .arr xs

/-- `GraphNode::setBool`. -/
def GraphValue.setBool (v : GraphValue) (b : Bool) : GraphValue := .bool b

/-- `GraphNode::setDouble`. -/
def GraphValue.setDouble (v : GraphValue) (d : Nat) : GraphValue := .double d

/-- `GraphNode::setInteger`. -/
def GraphValue.setInteger (v : GraphValue) (n : Int) : GraphValue := .int n

/-- `GraphNode::setObject`. -/
def GraphValue.setObject (v : GraphValue) (ms : List (String × Nat)) : GraphValue :=
  .obj ms

/-- `GraphNode::setReference` (graph.hpp lines 201-204).  The body is
`this->value = value;` — the member is assigned to itself and the
`reference` parameter is never used, so the node's stored value is
unchanged. -/
def GraphValue.setReference (v : GraphValue) (reference : Nat) : GraphValue := v

/-- `GraphNode::setString`. -/
def GraphValue.setString (v : GraphValue) (s : String) : GraphValue := .str s

/-- `boost::get<Array>` succeeds. -/
def isArrVal : GraphValue → Bool
  | .arr _ => true
  | _ => false

/-- `boost::get<bool>` succeeds. -/
def isBoolVal : GraphValue → Bool
  | .bool _ => true
  | _ => false

/-- `boost::get<double>` succeeds. -/
def isDoubleVal : GraphValue → Bool
  | .double _ => true
  | _ => false

/-- `boost::get<int64_t>` succeeds. -/
def isIntVal : GraphValue → Bool
  | .int _ => true
  | _ => false

/-- `boost::get<Object>` succeeds. -/
def isObjVal : GraphValue → Bool
  | .obj _ => true
  | _ => false

/-- `boost::get<String>` succeeds. -/
def isStrVal : GraphValue → Bool
  | .str _ => true
  | _ => false

/-- `GraphNode::resolvesTo<ValueType>` (graph.hpp lines 263-282): empty
nodes resolve to nothing, a reference is followed through the arena (an
expired weak link throws DanglingReference), and a concrete node is tested
with `boost::get<ValueType>`.  `isK` stands for the `ValueType`
instantiation. -/
def resolvesToK (st : List GraphValue) (isK : GraphValue → Bool) :
    Nat → GraphValue → Res Bool
  | 0, _ => .timeout
  | gas + 1, v =>
      match v with
      | .empty => .ok false
      | .ref t =>
          match st.get? t with
          | some v' => resolvesToK st isK gas v'
          | none => .fault .danglingReference
      | w => .ok (isK w)

/-- `GraphNode::resolveTo<Object>` returning `boost::optional`
(graph.hpp lines 284-306). -/
def resolveToObjectO (st : List GraphValue) :
    Nat → GraphValue → Res (Option (List (String × Nat)))
  | 0, _ => .timeout
  | gas + 1, v =>
      match v with
      | .obj ms => .ok (some ms)
      | .ref t =>
          match st.get? t with
          | some v' => resolveToObjectO st gas v'
          | none => .fault .danglingReference
      | _ => .ok none

/-- `GraphNode::resolveTo<double>(double &)` (graph.hpp lines 308-331): the
returned pair is the success flag and the final contents of the output
slot, which is written only when a double is found. -/
def resolveToDoubleR (st : List GraphValue) :
    Nat → GraphValue → Nat → Res (Bool × Nat)
  | 0, _, _ => .timeout
  | gas + 1, v, result =>
      match v with
      | .double d => .ok (true, d)
      | .ref t =>
          match st.get? t with
          | some v' => resolveToDoubleR st gas v' result
          | none => .fault .danglingReference
      | _ => .ok (false, result)

/-- `GraphNode::resolveTo<int64_t>(int64_t &)`. -/
def resolveToIntegerR (st : List GraphValue) :
    Nat → GraphValue → Int → Res (Bool × Int)
  | 0, _, _ => .timeout
  | gas + 1, v, result =>
      match v with
      | .int n => .ok (true, n)
      | .ref t =>
          match st.get? t with
          | some v' => resolveToIntegerR st gas v' result
          | none => .fault .danglingReference
      | _ => .ok (false, result)

/-- `GraphNode::sizeOfResolvedArray` (graph.hpp lines 211-233).  The Array
branch is `return a->size();` — the element count converted to `bool`, with
the `result` output parameter never written — so the returned pair carries
the bool the function returns and the (unchanged) contents of `result`. -/
def sizeOfResolvedArray (st : List GraphValue) :
    Nat → GraphValue → Nat → Res (Bool × Nat)
  | 0, _, _ => .timeout
  | gas + 1, v, result =>
      match v with
      | .empty => .ok (false, result)
      | .arr xs => .ok (decide (xs.length ≠ 0), result)
      | .ref t =>
          match st.get? t with
          | some v' => sizeOfResolvedArray st gas v' result
          | none => .fault .danglingReference
      | _ => .ok (false, result)

/-- `GraphNode::sizeOfResolvedObject` (graph.hpp lines 235-257); same
`return o->size();` conversion to `bool`, `result` never written. -/
def sizeOfResolvedObject (st : List GraphValue) :
    Nat → GraphValue → Nat → Res (Bool × Nat)
  | 0, _, _ => .timeout
  | gas + 1, v, result =>
      match v with
      | .empty => .ok (false, result)
      | .obj ms => .ok (decide (ms.length ≠ 0), result)
      | .ref t =>
          match st.get? t with
          | some v' => sizeOfResolvedObject st gas v' result
          | none => .fault .danglingReference
      | _ => .ok (false, result)

/-- `JsonGraphValue::isDouble` (graph_adapter.hpp lines 193-196). -/
def JsonGraphValue.isDouble (st : List GraphValue) (gas : Nat)
    (v : GraphValue) : Res Bool :=
  resolvesToK st isDoubleVal gas v

/-- `JsonGraphValue::isInteger` (graph_adapter.hpp lines 198-201). -/
def JsonGraphValue.isInteger (st : List GraphValue) (gas : Nat)
    (v : GraphValue) : Res Bool :=
  resolvesToK st isIntVal gas v

/-- `JsonGraphValue::isNumber` (graph_adapter.hpp lines 208-211):
`resolvesToDouble() || resolvesToInteger()` with C++ short-circuit
evaluation. -/
def JsonGraphValue.isNumber (st : List GraphValue) (gas : Nat)
    (v : GraphValue) : Res Bool :=
  match resolvesToK st isDoubleVal gas v with
  | .ok true => .ok true
  | .ok false => resolvesToK st isIntVal gas v
  | .fault f => .fault f
  | .timeout => .timeout

/-- `JsonGraphValue::getDouble` (graph_adapter.hpp lines 147-150). -/
def JsonGraphValue.getDouble (st : List GraphValue) (gas : Nat)
    (v : GraphValue) (result : Nat) : Res (Bool × Nat) :=
  resolveToDoubleR st gas v result

/-- `JsonGraphValue::getInteger` (graph_adapter.hpp lines 152-155). -/
def JsonGraphValue.getInteger (st : List GraphValue) (gas : Nat)
    (v : GraphValue) (result : Int) : Res (Bool × Int) :=
  resolveToIntegerR st gas v result

/-- The `Graph` class (graph.hpp lines 336-352): a container holding one
root node, created by `boost::make_shared<GraphNode>()` — i.e. an empty
node.  `Graph` declares exactly the default constructor and `getRootNode`;
it has no member function that replaces the root. -/
structure Graph : Type where
  root : GraphValue
deriving DecidableEq, Repr

/-- The `Graph()` constructor. -/
def Graph.new : Graph := { root := .empty }

/-- `Graph::getRootNode`. -/
def Graph.getRootNode (g : Graph) : GraphValue := g.root

/-- The composite read-only traversal through `JsonGraphAdapter`: rebuild a
document from a graph node by the adapter's kind queries and extractors,
following reference chains transparently (the `resolvesTo`/`resolveTo`
semantics), iterating arrays in stored order and objects in the stored
(key-sorted) order.  `none` when the fuel runs out or an id is not in the
arena. -/
def decode (st : List GraphValue) : Nat → Nat → Option JsonValue
  | 0, _ => none
  | gas + 1, nid =>
      match st.get? nid with
      | none => none
      | some .empty => some .null
      | some (.bool b) => some (.bool b)
      | some (.int n) => some (.int n)
      | some (.double d) => some (.double d)
      | some (.str s) => some (.str s)
      | some (.arr ids) => (ids.mapM (fun n => decode st gas n)).map .arr
      | some (.obj ms) =>
          (ms.mapM (fun kn => (decode st gas kn.2).map (fun v => (kn.1, v)))).map .obj
      | some (.ref t) => decode st gas t

/-- Insert-or-assign into a key-sorted member list of a document, mirroring
`objInsert` on decoded values. -/
def objInsertJ (k : String) (v : JsonValue) :
    List (String × JsonValue) → List (String × JsonValue)
  | [] => [(k, v)]
  | (k', v') :: t =>
      if strLt k k' then (k, v) :: (k', v') :: t
      else if k = k' then (k, v) :: t
      else (k', v') :: objInsertJ k v t

mutual

/-- The document as the parsed graph presents it: every object's members
re-ordered into ascending key order (the `std::map` order), arrays
unchanged. -/
def sortDoc : JsonValue → JsonValue
  | .arr xs => .arr (sortElems xs)
  | .obj ms => .obj (sortMembers ms [])
  | v => v

/-- `sortDoc` on each array element. -/
def sortElems : List JsonValue → List JsonValue
  | [] => []
  | v :: t => sortDoc v :: sortElems t

/-- Fold the members, in document order, into a key-sorted list by
insert-or-assign, starting from `acc`. -/
def sortMembers : List (String × JsonValue) → List (String × JsonValue) →
    List (String × JsonValue)
  | [], acc => acc
  | (k, v) :: t, acc => sortMembers t (objInsertJ k (sortDoc v) acc)

end

mutual

/-- Canonical paths strictly inside `t` (container entries only). -/
def pathsInner (p : String) : JsonValue → List String
  | .obj ms => pathsMembers p ms
  | .arr xs => pathsElems p 0 xs
  | _ => []

/-- Paths of object members and their subtrees. -/
def pathsMembers (p : String) : List (String × JsonValue) → List String
  | [] => []
  | (k, v) :: t =>
      ((p ++ "/" ++ k) :: pathsInner (p ++ "/" ++ k) v) ++ pathsMembers p t

/-- Paths of array elements and their subtrees. -/
def pathsElems (p : String) (i : Nat) : List JsonValue → List String
  | [] => []
  | v :: t =>
      ((p ++ "/" ++ toString i) :: pathsInner (p ++ "/" ++ toString i) v) ++
        pathsElems p (i + 1) t

end

/-- Canonical paths of all positions of a document rooted at path `p`:
`p` itself followed by the paths of the container's entries. -/
def pathsOf (p : String) (t : JsonValue) : List String :=
  p :: pathsInner p t

mutual

/-- No object anywhere in the document carries a member named `$ref`. -/
def noRefB : JsonValue → Bool
  | .obj ms => noRefMembers ms
  | .arr xs => noRefElems xs
  | _ => true

/-- `noRefB` over object members, also checking the keys themselves. -/
def noRefMembers : List (String × JsonValue) → Bool
  | [] => true
  | (k, v) :: t => !(k == "$ref") && noRefB v && noRefMembers t

/-- `noRefB` over array elements. -/
def noRefElems : List JsonValue → Bool
  | [] => true
  | v :: t => noRefB v && noRefElems t

end

example :
    decode [.obj [("a", 1)], .int 3] 5 0 = some (.obj [("a", .int 3)]) := rfl
example :
    pathsOf "" (.obj [("b", .bool true), ("a", .null)]) = ["", "/b", "/a"] := rfl
example : sortDoc (.obj [("b", .bool true), ("a", .null)]) =
    .obj [("a", .null), ("b", .bool true)] := rfl

/-! ## General lemmas about the string order used by `std::map` -/

theorem charsLt_cons (x y : Char) (s t : List Char) :
    charsLt (x :: s) (y :: t) = true ↔
      x.toNat < y.toNat ∨ (x.toNat = y.toNat ∧ charsLt s t = true) := by
  simp only [charsLt]
  by_cases h1 : x.toNat < y.toNat
  · simp [h1]
  · by_cases h2 : x.toNat = y.toNat
    · simp [h1, h2]
    · simp [h1, h2]

theorem charsLt_conn :
    ∀ a b : List Char, charsLt a b = true ∨ charsLt b a = true ∨ a = b := by
  intro a
  induction a with
  | nil =>
      intro b
      cases b with
      | nil => simp [charsLt]
      | cons c t => simp [charsLt]
  | cons x s ih =>
      intro b
      cases b with
      | nil => simp [charsLt]
      | cons y t =>
          rcases Nat.lt_trichotomy x.toNat y.toNat with h | h | h
          · left
            rw [charsLt_cons]
            exact Or.inl h
          · rcases ih t with h2 | h2 | h2
            · left
              rw [charsLt_cons]
              exact Or.inr ⟨h, h2⟩
            · right
              left
              rw [charsLt_cons]
              exact Or.inr ⟨h.symm, h2⟩
            · right
              right
              have hx : x = y := by
                rw [← Char.ofNat_toNat x, h, Char.ofNat_toNat]
              rw [hx, h2]
          · right
            left
            rw [charsLt_cons]
            exact Or.inl h

theorem charsLt_trans :
    ∀ a b c : List Char, charsLt a b = true → charsLt b c = true →
      charsLt a c = true := by
  intro a
  induction a with
  | nil =>
      intro b c hab hbc
      cases b with
      | nil => simp [charsLt] at hab
      | cons y t =>
          cases c with
          | nil => simp [charsLt] at hbc
          | cons z u => simp [charsLt]
  | cons x s ih =>
      intro b c hab hbc
      cases b with
      | nil => simp [charsLt] at hab
      | cons y t =>
          cases c with
          | nil => simp [charsLt] at hbc
          | cons z u =>
              rw [charsLt_cons] at hab hbc ⊢
              rcases hab with h1 | ⟨h1, h1'⟩
              · rcases hbc with h2 | ⟨h2, _⟩
                · exact Or.inl (Nat.lt_trans h1 h2)
                · exact Or.inl (h2 ▸ h1)
              · rcases hbc with h2 | ⟨h2, h2'⟩
                · exact Or.inl (h1 ▸ h2)
                · exact Or.inr ⟨h1.trans h2, ih t u h1' h2'⟩

theorem strLt_conn (a b : String) :
    strLt a b = true ∨ strLt b a = true ∨ a = b := by
  rcases charsLt_conn a.data b.data with h | h | h
  · exact Or.inl h
  · exact Or.inr (Or.inl h)
  · exact Or.inr (Or.inr (String.ext h))

theorem strLt_trans (a b c : String) (h1 : strLt a b = true)
    (h2 : strLt b c = true) : strLt a c = true :=
  charsLt_trans a.data b.data c.data h1 h2

/-! ## Sortedness of `std::map` object storage -/

theorem objInsert_mem (k : String) (n : Nat) :
    ∀ (l : List (String × Nat)) (x : String × Nat),
      x ∈ objInsert k n l → x = (k, n) ∨ x ∈ l := by
  intro l
  induction l with
  | nil =>
      intro x hx
      simp only [objInsert, List.mem_singleton] at hx
      exact Or.inl hx
  | cons hd t ih =>
      intro x hx
      obtain ⟨k', n'⟩ := hd
      simp only [objInsert] at hx
      by_cases h1 : strLt k k' = true
      · rw [if_pos h1] at hx
        rcases List.mem_cons.mp hx with hx | hx
        · exact Or.inl hx
        · exact Or.inr hx
      · rw [if_neg h1] at hx
        by_cases h2 : k = k'
        · rw [if_pos h2] at hx
          rcases List.mem_cons.mp hx with hx | hx
          · exact Or.inl hx
          · exact Or.inr (List.mem_cons_of_mem _ hx)
        · rw [if_neg h2] at hx
          rcases List.mem_cons.mp hx with hx | hx
          · exact Or.inr (by rw [hx]; exact List.mem_cons_self _ _)
          · rcases ih x hx with hy | hy
            · exact Or.inl hy
            · exact Or.inr (List.mem_cons_of_mem _ hy)

theorem objInsert_pairwise (k : String) (n : Nat) :
    ∀ l : List (String × Nat),
      l.Pairwise (fun a b => strLt a.1 b.1 = true) →
      (objInsert k n l).Pairwise (fun a b => strLt a.1 b.1 = true) := by
  intro l
  induction l with
  | nil =>
      intro _
      simp [objInsert]
  | cons hd t ih =>
      intro hp
      obtain ⟨k', n'⟩ := hd
      rw [List.pairwise_cons] at hp
      obtain ⟨hhead, htail⟩ := hp
      simp only [objInsert]
      by_cases h1 : strLt k k' = true
      · rw [if_pos h1, List.pairwise_cons]
        refine ⟨?_, ?_⟩
        · intro y hy
          rcases List.mem_cons.mp hy with hy | hy
          · rw [hy]
            exact h1
          · exact strLt_trans _ _ _ h1 (hhead y hy)
        · rw [List.pairwise_cons]
          exact ⟨hhead, htail⟩
      · rw [if_neg h1]
        by_cases h2 : k = k'
        · rw [if_pos h2, List.pairwise_cons]
          refine ⟨?_, htail⟩
          intro y hy
          rw [h2]
          exact hhead y hy
        · rw [if_neg h2, List.pairwise_cons]
          refine ⟨?_, ih htail⟩
          intro y hy
          rcases objInsert_mem k n t y hy with hy2 | hy2
          · rw [hy2]
            rcases strLt_conn k' k with hc | hc | hc
            · exact hc
            · exact absurd hc h1
            · exact absurd hc.symm h2
          · exact hhead y hy2

/-! ## Claims -/

/-- C3: the claim says both all-reference documents fail with an
UnresolvedReferenceCycle fault.  They do fail, but the fault the parse
raises is a JSON-Pointer resolution error (the parser resolves the `$ref`
pointer against the reference object itself, which has no such member), and
no code path produces `unresolvedReferenceCycle`. -/
theorem C3_cycle_fault_kind_counterexample :
    parseDocument (.obj [("a", .obj [("$ref", .str "#/a")])]) 20 =
        .fault .pointerResolution ∧
    parseDocument
        (.obj [("a", .obj [("$ref", .str "#/b")]),
               ("b", .obj [("$ref", .str "#/a")])]) 20 =
        .fault .pointerResolution ∧
    (Res.fault (α := Nat × PState) .pointerResolution ≠
        .fault .unresolvedReferenceCycle) :=
  ⟨rfl, rfl, by decide⟩

/-- C3 (amended): parsing `{"a": {"$ref": "#/a"}}` or
`{"a": {"$ref": "#/b"}, "b": {"$ref": "#/a"}}` fails with an exception
raised out of `parse` — a JSON-Pointer resolution fault — and produces no
graph. -/
theorem C3_unresolvable_reference_documents_fault :
    parseDocument (.obj [("a", .obj [("$ref", .str "#/a")])]) 20 =
        .fault .pointerResolution ∧
    parseDocument
        (.obj [("a", .obj [("$ref", .str "#/b")]),
               ("b", .obj [("$ref", .str "#/a")])]) 20 =
        .fault .pointerResolution :=
  ⟨rfl, rfl⟩

/-- C4: `{"a": {"b": {"$ref": "#/a"}}}` parses successfully: node 0 is the
root, node 1 the object at `/a` (registered in `resolvedNodes` before its
children are parsed), and node 2 — the node at `/a/b` — is a reference to
node 1, so the adapter at `/a/b` resolves to exactly the same Object value
as the node at `/a`. -/
theorem C4_intervening_concrete_node_cycle_parses :
    parseDocument (.obj [("a", .obj [("b", .obj [("$ref", .str "#/a")])])]) 20 =
        .ok (0, ⟨[.obj [("a", 1)], .obj [("b", 2)], .ref 1],
                 [("/a", 1), ("", 0)]⟩) ∧
    resolveToObjectO [.obj [("a", 1)], .obj [("b", 2)], .ref 1] 9 (.ref 1) =
        .ok (some [("b", 2)]) ∧
    resolveToObjectO [.obj [("a", 1)], .obj [("b", 2)], .ref 1] 9
        (.obj [("b", 2)]) = .ok (some [("b", 2)]) :=
  ⟨rfl, rfl, rfl⟩

/-- C5: the code resolves a `$ref` pointer against `currentNode.top()` (the
reference object itself), not against the document root.  For
`{"a": {"$ref": "#/b"}, "b": 5}` the root-relative resolution of `/b` finds
the value 5 (second conjunct), but the parse faults (first conjunct)
because resolving `/b` against `{"$ref": "#/b"}` fails (third conjunct). -/
theorem C5_pointer_not_resolved_against_root :
    parseDocument (.obj [("a", .obj [("$ref", .str "#/b")]), ("b", .int 5)])
        20 = .fault .pointerResolution ∧
    resolveJsonPointer
        (.obj [("a", .obj [("$ref", .str "#/b")]), ("b", .int 5)]) "/b" =
        .ok (.int 5) ∧
    resolveJsonPointer (.obj [("$ref", .str "#/b")]) "/b" =
        .fault .pointerResolution :=
  ⟨rfl, rfl, rfl⟩

/-- C6: a newly constructed Graph has an empty (Null) root node.  The rest
of the claim fails on the code: `GraphParser::parse` ends with
`graph.setRootNode(graphNode)` but the `Graph` class declares no
`setRootNode` member at all, so the parsed root is never delivered to the
graph. -/
theorem C6_fresh_graph_root_is_empty :
    Graph.new.getRootNode = .empty ∧
    Graph.new.getRootNode.isEmpty = true :=
  ⟨rfl, rfl⟩

/-- C7: `sizeOfResolvedArray` and `sizeOfResolvedObject` do not store the
element count into `result`: the Array/Object branch is
`return a->size();`, which converts the count to the returned `bool` and
leaves `result` untouched.  With `result` pre-set to 99, a two-element
array yields `(true, 99)` instead of storing 2, and an empty array yields
`(false, 99)` instead of `(true, 0)`; objects behave the same way. -/
theorem C7_sizeOfResolved_returns_count_as_bool :
    sizeOfResolvedArray [] 1 (.arr [5, 6]) 99 = .ok (true, 99) ∧
    sizeOfResolvedArray [] 1 (.arr []) 99 = .ok (false, 99) ∧
    sizeOfResolvedObject [] 1 (.obj [("x", 3)]) 99 = .ok (true, 99) ∧
    sizeOfResolvedObject [] 1 (.obj []) 99 = .ok (false, 99) :=
  ⟨rfl, rfl, rfl, rfl⟩

/-- C8: `setReference` assigns the node's own `value` member to itself and
ignores the `reference` argument, so an empty placeholder stays empty and
never becomes a Reference node; the other setters do store the supplied
value. -/
theorem C8_setReference_ignores_argument :
    GraphValue.setReference .empty 7 = .empty ∧
    (GraphValue.setReference .empty 7).isReference = false ∧
    (GraphValue.setReference (.int 3) 7) = .int 3 ∧
    GraphValue.setArray .empty [1, 2] = .arr [1, 2] ∧
    GraphValue.setBool .empty true = .bool true ∧
    GraphValue.setDouble .empty 5 = .double 5 ∧
    GraphValue.setInteger .empty (-4) = .int (-4) ∧
    GraphValue.setObject .empty [("k", 9)] = .obj [("k", 9)] ∧
    GraphValue.setString .empty "s" = .str "s" :=
  ⟨rfl, rfl, rfl, rfl, rfl, rfl, rfl, rfl, rfl⟩

/-- C9: the claim says object member iteration follows the source
document's member order.  `GraphNode::Object` is a `std::map`, so the
stored (and iterated) order is ascending key order: parsing
`{"b": 1, "a": 2}` stores the members as `[("a", ·), ("b", ·)]`, not in the
source order `[("b", ·), ("a", ·)]`. -/
theorem C9_member_order_counterexample :
    parseDocument (.obj [("b", .int 1), ("a", .int 2)]) 20 =
        .ok (0, ⟨[.obj [("a", 2), ("b", 1)], .int 1, .int 2],
                 [("/a", 2), ("/b", 1), ("", 0)]⟩) ∧
    ([("a", 2), ("b", 1)] : List (String × Nat)) ≠ [("b", 1), ("a", 2)] :=
  ⟨rfl, by decide⟩

/-- C9 (amended): object members are stored — and therefore iterated by
`JsonGraphObjectMemberIterator` — in strictly ascending lexicographic key
order (the `std::map` order), whatever order the parser inserted them in;
this equals source order only when the source members are already
key-sorted. -/
theorem C9_member_iteration_key_sorted :
    ∀ ms : List (String × Nat),
      (ms.foldl (fun acc kn => objInsert kn.1 kn.2 acc) []).Pairwise
        (fun a b => strLt a.1 b.1 = true) := by
  have step :
      ∀ (ms : List (String × Nat)) (acc : List (String × Nat)),
        acc.Pairwise (fun a b => strLt a.1 b.1 = true) →
        (ms.foldl (fun acc kn => objInsert kn.1 kn.2 acc) acc).Pairwise
          (fun a b => strLt a.1 b.1 = true) := by
    intro ms
    induction ms with
    | nil => intro acc h; simpa using h
    | cons hd t ih =>
        intro acc h
        simp only [List.foldl_cons]
        exact ih _ (objInsert_pairwise hd.1 hd.2 acc h)
  intro ms
  exact step ms [] (by simp)

/-- C10: numeric kinds are strict through the adapter: a node whose chain
resolves to an Integer satisfies `isNumber`, fails `isDouble`, and
`getDouble` returns false leaving the output slot unchanged; symmetrically
a node resolving to a Double is not an Integer and `getInteger` fails
without touching its output slot. -/
theorem C10_numeric_kinds_strict :
    ∀ (st : List GraphValue) (gas : Nat) (v : GraphValue),
      (resolvesToK st isIntVal gas v = .ok true →
        JsonGraphValue.isNumber st gas v = .ok true ∧
        JsonGraphValue.isDouble st gas v = .ok false ∧
        ∀ r, JsonGraphValue.getDouble st gas v r = .ok (false, r)) ∧
      (resolvesToK st isDoubleVal gas v = .ok true →
        JsonGraphValue.isInteger st gas v = .ok false ∧
        ∀ r, JsonGraphValue.getInteger st gas v r = .ok (false, r)) := by
  intro st gas
  induction gas with
  | zero =>
      intro v
      constructor <;> intro h <;> simp [resolvesToK] at h
  | succ g ih =>
      intro v
      cases v with
      | empty =>
          constructor <;> intro h <;> simp [resolvesToK] at h
      | arr xs =>
          constructor <;> intro h <;> simp [resolvesToK, isIntVal, isDoubleVal] at h
      | bool b =>
          constructor <;> intro h <;> simp [resolvesToK, isIntVal, isDoubleVal] at h
      | obj ms =>
          constructor <;> intro h <;> simp [resolvesToK, isIntVal, isDoubleVal] at h
      | str s =>
          constructor <;> intro h <;> simp [resolvesToK, isIntVal, isDoubleVal] at h
      | int n =>
          constructor
          · intro _
            refine ⟨?_, ?_, ?_⟩
            · simp [JsonGraphValue.isNumber, resolvesToK, isDoubleVal, isIntVal]
            · simp [JsonGraphValue.isDouble, resolvesToK, isDoubleVal]
            · intro r
              simp [JsonGraphValue.getDouble, resolveToDoubleR]
          · intro h
            simp [resolvesToK, isDoubleVal] at h
      | double d =>
          constructor
          · intro h
            simp [resolvesToK, isIntVal] at h
          · intro _
            refine ⟨?_, ?_⟩
            · simp [JsonGraphValue.isInteger, resolvesToK, isIntVal]
            · intro r
              simp [JsonGraphValue.getInteger, resolveToIntegerR]
      | ref t =>
          cases hg : st[t]? with
          | none =>
              constructor <;> intro h <;> simp [resolvesToK, hg] at h
          | some v' =>
              constructor
              · intro h
                rw [show resolvesToK st isIntVal (g + 1) (.ref t) =
                      resolvesToK st isIntVal g v' by simp [resolvesToK, hg]]
                    at h
                obtain ⟨h1, h2, h3⟩ := (ih v').1 h
                refine ⟨?_, ?_, ?_⟩
                · simpa [JsonGraphValue.isNumber, JsonGraphValue.isDouble,
                    JsonGraphValue.isInteger, resolvesToK, hg] using h1
                · simpa [JsonGraphValue.isDouble, resolvesToK, hg] using h2
                · intro r
                  have := h3 r
                  simpa [JsonGraphValue.getDouble, resolveToDoubleR, hg]
                    using this
              · intro h
                rw [show resolvesToK st isDoubleVal (g + 1) (.ref t) =
                      resolvesToK st isDoubleVal g v' by simp [resolvesToK, hg]]
                    at h
                obtain ⟨h1, h2⟩ := (ih v').2 h
                refine ⟨?_, ?_⟩
                · simpa [JsonGraphValue.isInteger, resolvesToK, hg] using h1
                · intro r
                  have := h2 r
                  simpa [JsonGraphValue.getInteger, resolveToIntegerR, hg]
                    using this

/-- C10 witness: in the arena `[int 5, double 7]`, the reference node to
slot 0 resolves to an Integer; it is a number, not a double, and
`getDouble` fails leaving the slot at 99; the reference to slot 1 resolves
to a Double and is not an Integer. -/
theorem C10_numeric_kinds_strict_witness :
    JsonGraphValue.isNumber [.int 5, .double 7] 2 (.ref 0) = .ok true ∧
    JsonGraphValue.isDouble [.int 5, .double 7] 2 (.ref 0) = .ok false ∧
    JsonGraphValue.getDouble [.int 5, .double 7] 2 (.ref 0) 99 =
      .ok (false, 99) ∧
    JsonGraphValue.isInteger [.int 5, .double 7] 2 (.ref 1) = .ok false ∧
    JsonGraphValue.getInteger [.int 5, .double 7] 2 (.ref 1) 99 =
      .ok (false, 99) := by
  have h0 := (C10_numeric_kinds_strict [.int 5, .double 7] 2 (.ref 0)).1
    (by decide)
  have h1 := (C10_numeric_kinds_strict [.int 5, .double 7] 2 (.ref 1)).2
    (by decide)
  exact ⟨h0.1, h0.2.1, h0.2.2 99, h1.1, h1.2 99⟩

/-! ## Termination of the parser (claim C2) -/

theorem jsize_pos : ∀ t : JsonValue, 1 ≤ jsize t := by
  intro t
  cases t <;> simp [jsize]

theorem jsizeMembers_nonneg_mem :
    ∀ (ms : List (String × JsonValue)) (k : String) (c : JsonValue),
      assocFind k ms = some c → jsize c < 1 + jsizeMembers ms := by
  intro ms
  induction ms with
  | nil =>
      intro k c h
      simp [assocFind] at h
  | cons hd t ih =>
      intro k c h
      obtain ⟨k', v⟩ := hd
      simp only [assocFind] at h
      by_cases hk : k = k'
      · rw [if_pos hk] at h
        cases h
        simp only [jsizeMembers]
        omega
      · rw [if_neg hk] at h
        have := ih k c h
        simp only [jsizeMembers]
        omega

theorem jsizeElems_nonneg_get :
    ∀ (xs : List JsonValue) (i : Nat) (c : JsonValue),
      xs[i]? = some c → jsize c < 1 + jsizeElems xs := by
  intro xs
  induction xs with
  | nil =>
      intro i c h
      simp at h
  | cons x t ih =>
      intro i c h
      cases i with
      | zero =>
          simp at h
          rw [← h]
          simp only [jsizeElems]
          omega
      | succ j =>
          simp at h
          have := ih j c (by simpa using h)
          simp only [jsizeElems]
          omega

theorem resolveSegs_size_le :
    ∀ (segs : List (List Char)) (v r : JsonValue),
      resolveSegs v segs = .ok r → jsize r ≤ jsize v := by
  intro segs
  induction segs with
  | nil =>
      intro v r h
      simp only [resolveSegs] at h
      cases h
      exact Nat.le_refl _
  | cons seg rest ih =>
      intro v r h
      cases v with
      | obj ms =>
          simp only [resolveSegs] at h
          cases hf : assocFind (String.mk seg) ms with
          | none => rw [hf] at h; cases h
          | some c =>
              rw [hf] at h
              have h1 := ih c r h
              have h2 := jsizeMembers_nonneg_mem ms (String.mk seg) c hf
              simp only [jsize]
              omega
      | arr xs =>
          simp only [resolveSegs] at h
          cases hd : digitsToNat seg with
          | none => rw [hd] at h; cases h
          | some i =>
              simp only [hd] at h
              cases hg : xs[i]? with
              | none => rw [hg] at h; cases h
              | some c =>
                  rw [hg] at h
                  have h1 := ih c r h
                  have h2 := jsizeElems_nonneg_get xs i c hg
                  simp only [jsize]
                  omega
      | null => simp [resolveSegs] at h
      | bool b => simp [resolveSegs] at h
      | int n => simp [resolveSegs] at h
      | double d => simp [resolveSegs] at h
      | str s => simp [resolveSegs] at h

theorem resolveSegs_size_lt :
    ∀ (seg : List Char) (rest : List (List Char)) (v r : JsonValue),
      resolveSegs v (seg :: rest) = .ok r → jsize r < jsize v := by
  intro seg rest v r h
  cases v with
  | obj ms =>
      simp only [resolveSegs] at h
      cases hf : assocFind (String.mk seg) ms with
      | none => rw [hf] at h; cases h
      | some c =>
          rw [hf] at h
          have h1 := resolveSegs_size_le rest c r h
          have h2 := jsizeMembers_nonneg_mem ms (String.mk seg) c hf
          simp only [jsize]
          omega
  | arr xs =>
      simp only [resolveSegs] at h
      cases hd : digitsToNat seg with
      | none => rw [hd] at h; cases h
      | some i =>
          simp only [hd] at h
          cases hg : xs[i]? with
          | none => rw [hg] at h; cases h
          | some c =>
              rw [hg] at h
              have h1 := resolveSegs_size_le rest c r h
              have h2 := jsizeElems_nonneg_get xs i c hg
              simp only [jsize]
              omega
  | null => simp [resolveSegs] at h
  | bool b => simp [resolveSegs] at h
  | int n => simp [resolveSegs] at h
  | double d => simp [resolveSegs] at h
  | str s => simp [resolveSegs] at h

theorem splitSlash_ne_nil : ∀ cs : List Char, splitSlash cs ≠ [] := by
  intro cs
  cases cs with
  | nil => simp [splitSlash]
  | cons c t =>
      simp only [splitSlash]
      by_cases hc : c = '/'
      · rw [if_pos hc]
        simp
      · rw [if_neg hc]
        cases splitSlash t <;> simp

theorem getJsonReferencePointer_shape (s p : String)
    (h : getJsonReferencePointer s = .ok p) :
    ∃ rest : List Char, p.data = '/' :: rest := by
  unfold getJsonReferencePointer at h
  cases hs : s.data with
  | nil => rw [hs] at h; cases h
  | cons c t =>
      rw [hs] at h
      cases t with
      | nil => cases h
      | cons c2 u =>
          have h' : (if c = '#' ∧ c2 = '/' then
              Res.ok (String.mk ('/' :: u)) else
              Res.fault .notImplemented) = Res.ok p := h
          by_cases hc : c = '#' ∧ c2 = '/'
          · rw [if_pos hc] at h'
            cases h'
            exact ⟨u, rfl⟩
          · rw [if_neg hc] at h'
            cases h' 

theorem refStep_size (s p : String) (top top2 : JsonValue)
    (h1 : getJsonReferencePointer s = .ok p)
    (h2 : resolveJsonPointer top p = .ok top2) :
    jsize top2 < jsize top := by
  obtain ⟨rest, hp⟩ := getJsonReferencePointer_shape s p h1
  unfold resolveJsonPointer at h2
  rw [hp] at h2
  have h2' : resolveSegs top (splitSlash rest) = Res.ok top2 := by
    have hx : (if ('/' : Char) = '/' then resolveSegs top (splitSlash rest)
        else Res.fault .pointerResolution) = Res.ok top2 := h2
    rwa [if_pos rfl] at hx
  cases hs : splitSlash rest with
  | nil => exact absurd hs (splitSlash_ne_nil rest)
  | cons seg segs =>
      rw [hs] at h2'
      exact resolveSegs_size_lt seg segs top top2 h2' 

theorem parseJsonReference_no_timeout :
    ∀ t : JsonValue, parseJsonReference t ≠ .timeout := by
  intro t
  cases t <;> simp only [parseJsonReference] <;> try simp
  case obj ms =>
    cases hf : assocFind "$ref" ms with
    | none => simp
    | some c => cases c <;> simp

theorem getJsonReferencePointer_no_timeout :
    ∀ s : String, getJsonReferencePointer s ≠ .timeout := by
  intro s
  unfold getJsonReferencePointer
  cases s.data with
  | nil => simp
  | cons c t =>
      cases t with
      | nil => simp
      | cons c2 u =>
          show (if c = '#' ∧ c2 = '/' then Res.ok (String.mk ('/' :: u))
              else Res.fault .notImplemented) ≠ Res.timeout
          by_cases hc : c = '#' ∧ c2 = '/'
          · rw [if_pos hc]
            simp
          · rw [if_neg hc]
            simp

theorem resolveSegs_no_timeout :
    ∀ (segs : List (List Char)) (v : JsonValue),
      resolveSegs v segs ≠ .timeout := by
  intro segs
  induction segs with
  | nil => intro v; simp [resolveSegs]
  | cons seg rest ih =>
      intro v
      cases v with
      | obj ms =>
          simp only [resolveSegs]
          cases assocFind (String.mk seg) ms with
          | none => simp
          | some c => exact ih c
      | arr xs =>
          simp only [resolveSegs]
          cases digitsToNat seg with
          | none => simp
          | some i =>
              show (match xs[i]? with
                  | some c => resolveSegs c rest
                  | none => Res.fault .pointerResolution) ≠ Res.timeout
              cases xs[i]? with
              | none => simp
              | some c => exact ih c
      | null => simp [resolveSegs]
      | bool b => simp [resolveSegs]
      | int n => simp [resolveSegs]
      | double d => simp [resolveSegs]
      | str s => simp [resolveSegs]

theorem resolveJsonPointer_no_timeout :
    ∀ (v : JsonValue) (p : String), resolveJsonPointer v p ≠ .timeout := by
  intro v p
  unfold resolveJsonPointer
  cases p.data with
  | nil => simp
  | cons c t =>
      show (if c = '/' then resolveSegs v (splitSlash t)
          else Res.fault .pointerResolution) ≠ Res.timeout
      by_cases hc : c = '/'
      · rw [if_pos hc]
        exact resolveSegs_no_timeout (splitSlash t) v
      · rw [if_neg hc]
        simp

theorem refLoop_no_timeout :
    ∀ (gas : Nat) (s : String) (top : JsonValue) (u : List String)
      (st : PState), jsize top < gas → refLoop s top u st gas ≠ .timeout := by
  intro gas
  induction gas with
  | zero =>
      intro s top u st h
      have := jsize_pos top
      omega
  | succ g ih =>
      intro s top u st h
      simp only [refLoop]
      cases hg : getJsonReferencePointer s with
      | fault f => simp
      | timeout => exact absurd hg (getJsonReferencePointer_no_timeout s)
      | ok p =>
          cases hl : lookupResolved st p with
          | some nid => simp [hl]
          | none =>
              cases hr : resolveJsonPointer top p with
              | fault f => simp [hl, hr]
              | timeout => exact absurd hr (resolveJsonPointer_no_timeout top p)
              | ok top2 =>
                  have hsz := refStep_size s p top top2 hg hr
                  simp only [hl, hr]
                  exact ih s top2 (setInsert p u) st (by omega)

theorem parse_no_timeout :
    ∀ gas : Nat,
      (∀ (root t : JsonValue) (p : String) (st : PState),
        3 * jsize t ≤ gas → parseNode root t p st gas ≠ .timeout) ∧
      (∀ (nid : Nat) (root t : JsonValue) (p : String) (st : PState),
        3 * jsize t ≤ gas + 1 → parseNodeInto nid root t p st gas ≠ .timeout) ∧
      (∀ (root : JsonValue) (ms : List (String × JsonValue)) (p : String)
          (acc : List (String × Nat)) (st : PState),
        3 * jsizeMembers ms + 1 ≤ gas →
          parseMembers root ms p acc st gas ≠ .timeout) ∧
      (∀ (root : JsonValue) (xs : List JsonValue) (i : Nat) (p : String)
          (acc : List Nat) (st : PState),
        3 * jsizeElems xs + 1 ≤ gas →
          parseElems root xs i p acc st gas ≠ .timeout) := by
  intro gas
  induction gas with
  | zero =>
      refine ⟨?_, ?_, ?_, ?_⟩
      · intro root t p st h
        have := jsize_pos t
        omega
      · intro nid root t p st h
        have := jsize_pos t
        omega
      · intro root ms p acc st h
        omega
      · intro root xs i p acc st h
        omega
  | succ g ih =>
      obtain ⟨ihNode, ihInto, ihMembers, ihElems⟩ := ih
      refine ⟨?_, ?_, ?_, ?_⟩
      · intro root t p st h
        simp only [parseNode]
        cases hl : lookupResolved st p with
        | some nid => simp
        | none =>
            cases hj : parseJsonReference t with
            | fault f => simp
            | timeout => exact absurd hj (parseJsonReference_no_timeout t)
            | ok o =>
                cases o with
                | some s =>
                    have hp := jsize_pos t
                    exact refLoop_no_timeout g s t [] st (by omega)
                | none =>
                    simp only [alloc]
                    split
                    · simp
                    · simp
                    · rename_i heq
                      exact absurd heq (ihInto _ root t p _ (by omega))
      · intro nid root t p st h
        cases t with
        | obj ms =>
            simp only [parseNodeInto]
            split
            · simp
            · simp
            · rename_i heq
              have hb : 3 * jsizeMembers ms + 1 ≤ g := by
                simp only [jsize] at h
                omega
              exact absurd heq (ihMembers root ms p [] st hb)
        | arr xs =>
            simp only [parseNodeInto]
            split
            · simp
            · simp
            · rename_i heq
              have hb : 3 * jsizeElems xs + 1 ≤ g := by
                simp only [jsize] at h
                omega
              exact absurd heq (ihElems root xs 0 p [] st hb)
        | null => simp [parseNodeInto]
        | bool b => simp [parseNodeInto]
        | int n => simp [parseNodeInto]
        | double d => simp [parseNodeInto]
        | str s => simp [parseNodeInto]
      · intro root ms p acc st h
        cases ms with
        | nil => simp [parseMembers]
        | cons hd rest =>
            obtain ⟨k, c⟩ := hd
            simp only [parseMembers]
            have hc := jsize_pos c
            simp only [jsizeMembers] at h
            split
            · rename_i n st' heq
              exact ihMembers root rest p (objInsert k n acc) st' (by omega)
            · simp
            · rename_i heq
              exact absurd heq (ihNode root c (p ++ "/" ++ k) st (by omega))
      · intro root xs i p acc st h
        cases xs with
        | nil => simp [parseElems]
        | cons c rest =>
            simp only [parseElems]
            have hc := jsize_pos c
            simp only [jsizeElems] at h
            split
            · rename_i n st' heq
              exact ihElems root rest (i + 1) p (acc ++ [n]) st' (by omega)
            · simp
            · rename_i heq
              exact absurd heq
                (ihNode root c (p ++ "/" ++ toString i) st (by omega))

/-- C2: parsing any finite document terminates — with fuel 3·jsize(doc) the
model never runs out, so the C++ recursion and reference-chasing loop always
reach a return or a thrown fault — and a `parseNode` call whose canonical
path is already in `resolvedNodes` returns the previously created node
handle immediately, leaving the state untouched. -/
theorem C2_parse_terminates_and_memoises :
    (∀ doc : JsonValue, parseDocument doc (3 * jsize doc) ≠ .timeout) ∧
    (∀ (root start : JsonValue) (path : String) (st : PState) (nid gas : Nat),
      lookupResolved st path = some nid →
      parseNode root start path st (gas + 1) = .ok (nid, st)) := by
  constructor
  · intro doc
    exact (parse_no_timeout (3 * jsize doc)).1 doc doc "" ⟨[], []⟩
      (Nat.le_refl _)
  · intro root start path st nid gas h
    simp [parseNode, h]

/-- C2 witness: a concrete already-resolved path is returned immediately,
and a concrete parse terminates. -/
theorem C2_parse_terminates_and_memoises_witness :
    lookupResolved ⟨[], [("x", 4)]⟩ "x" = some 4 ∧
    parseNode .null (.obj [("x", .int 1)]) "x" ⟨[], [("x", 4)]⟩ 7 =
      .ok (4, ⟨[], [("x", 4)]⟩) ∧
    parseDocument (.obj [("a", .int 3)]) (3 * jsize (.obj [("a", .int 3)])) ≠
      .timeout :=
  ⟨rfl,
   C2_parse_terminates_and_memoises.2 .null (.obj [("x", .int 1)]) "x"
     ⟨[], [("x", 4)]⟩ 4 6 rfl,
   C2_parse_terminates_and_memoises.1 (.obj [("a", .int 3)])⟩

/-! ## Refinement for `$ref`-free documents (claim C1) -/

/-- Decode each entry of a `GraphNode::Object` slot list (the body of
`decode` at an object node). -/
def decodeMembers (nodes : List GraphValue) (gas : Nat)
    (l : List (String × Nat)) : Option (List (String × JsonValue)) :=
  l.mapM (fun kn => (decode nodes gas kn.2).map (fun v => (kn.1, v)))

/-- Decode each entry of a `GraphNode::Array` slot list. -/
def decodeElemsL (nodes : List GraphValue) (gas : Nat) (l : List Nat) :
    Option (List JsonValue) :=
  l.mapM (fun n => decode nodes gas n)

/-- Every entry present in the first arena is present unchanged in the
second (parsing only appends nodes and fills in slots that did not exist
before the call). -/
def nodesPreserved (st st' : PState) : Prop :=
  ∀ (j : Nat) (w : GraphValue), st.nodes[j]? = some w → st'.nodes[j]? = some w

/-- The second arena agrees with the first on every slot from `lo` up. -/
def agreeFrom (lo : Nat) (nodes nodesX : List GraphValue) : Prop :=
  ∀ (j : Nat) (w : GraphValue), lo ≤ j → nodes[j]? = some w →
    nodesX[j]? = some w

theorem noRefMembers_assocFind :
    ∀ ms : List (String × JsonValue), noRefMembers ms = true →
      assocFind "$ref" ms = none := by
  intro ms
  induction ms with
  | nil => intro _; rfl
  | cons hd t ih =>
      intro h
      obtain ⟨k, v⟩ := hd
      simp only [noRefMembers, Bool.and_eq_true, Bool.not_eq_true'] at h
      obtain ⟨⟨hk, _⟩, ht⟩ := h
      simp only [assocFind]
      rw [if_neg (by
        intro he
        rw [he] at hk
        simp at hk)]
      exact ih ht

theorem noRef_parseJsonReference (t : JsonValue) (h : noRefB t = true) :
    parseJsonReference t = .ok none := by
  cases t with
  | obj ms =>
      simp only [noRefB] at h
      simp only [parseJsonReference, noRefMembers_assocFind ms h]
  | null => rfl
  | bool b => rfl
  | int n => rfl
  | double d => rfl
  | str s => rfl
  | arr xs => rfl

theorem lookup_cons_ne (q p : String) (nid : Nat)
    (rest : List (String × Nat)) (h : q ≠ p) :
    List.lookup q ((p, nid) :: rest) = List.lookup q rest := by
  have hb : (q == p) = false := by simpa using h
  simp [List.lookup, hb]

theorem insertResolved_fresh (p : String) (nid : Nat) (st : PState)
    (h : List.lookup p st.resolved = none) :
    insertResolved p nid st = { st with resolved := (p, nid) :: st.resolved } := by
  simp [insertResolved, h]

theorem decodeMembers_nil (nodes : List GraphValue) (gas : Nat) :
    decodeMembers nodes gas [] = some [] := rfl

theorem decodeMembers_cons (nodes : List GraphValue) (gas : Nat)
    (k : String) (n : Nat) (t : List (String × Nat)) :
    decodeMembers nodes gas ((k, n) :: t) =
      match decode nodes gas n with
      | none => none
      | some v =>
          match decodeMembers nodes gas t with
          | none => none
          | some tl => some ((k, v) :: tl) := by
  simp only [decodeMembers, List.mapM_cons]
  cases decode nodes gas n with
  | none => rfl
  | some v =>
      cases ht : t.mapM (fun kn => (decode nodes gas kn.2).map
          (fun v => (kn.1, v))) with
      | none => simp [ht, Option.map]
      | some tl => simp [ht, Option.map]

theorem decodeElemsL_nil (nodes : List GraphValue) (gas : Nat) :
    decodeElemsL nodes gas [] = some [] := rfl

theorem decodeElemsL_cons (nodes : List GraphValue) (gas : Nat)
    (n : Nat) (t : List Nat) :
    decodeElemsL nodes gas (n :: t) =
      match decode nodes gas n with
      | none => none
      | some v =>
          match decodeElemsL nodes gas t with
          | none => none
          | some tl => some (v :: tl) := by
  simp only [decodeElemsL, List.mapM_cons]
  cases decode nodes gas n with
  | none => rfl
  | some v =>
      cases ht : t.mapM (fun n => decode nodes gas n) with
      | none => simp [ht]
      | some tl => simp [ht]

theorem decodeElemsL_append_one (nodes : List GraphValue) (gas : Nat)
    (l : List Nat) (n : Nat) (lJ : List JsonValue) (w : JsonValue)
    (hl : decodeElemsL nodes gas l = some lJ)
    (hn : decode nodes gas n = some w) :
    decodeElemsL nodes gas (l ++ [n]) = some (lJ ++ [w]) := by
  induction l generalizing lJ with
  | nil =>
      rw [decodeElemsL_nil] at hl
      cases hl
      simp only [List.nil_append]
      rw [decodeElemsL_cons, hn, decodeElemsL_nil]
  | cons x t ih =>
      rw [decodeElemsL_cons] at hl
      cases hx : decode nodes gas x with
      | none => rw [hx] at hl; cases hl
      | some v =>
          rw [hx] at hl
          cases ht : decodeElemsL nodes gas t with
          | none => rw [ht] at hl; cases hl
          | some tl =>
              rw [ht] at hl
              cases hl
              simp only [List.cons_append]
              rw [decodeElemsL_cons, hx, ih tl ht]

theorem decodeMembers_objInsert (nodes : List GraphValue) (gas : Nat)
    (k : String) (n : Nat) (w : JsonValue)
    (hn : decode nodes gas n = some w) :
    ∀ (acc : List (String × Nat)) (accJ : List (String × JsonValue)),
      decodeMembers nodes gas acc = some accJ →
      decodeMembers nodes gas (objInsert k n acc) =
        some (objInsertJ k w accJ) := by
  intro acc
  induction acc with
  | nil =>
      intro accJ h
      rw [decodeMembers_nil] at h
      cases h
      simp only [objInsert, objInsertJ]
      rw [decodeMembers_cons, hn, decodeMembers_nil]
  | cons hd t ih =>
      intro accJ h
      obtain ⟨k', n'⟩ := hd
      rw [decodeMembers_cons] at h
      cases hx : decode nodes gas n' with
      | none => rw [hx] at h; cases h
      | some v' =>
          rw [hx] at h
          cases ht : decodeMembers nodes gas t with
          | none => rw [ht] at h; cases h
          | some tl =>
              rw [ht] at h
              cases h
              simp only [objInsert, objInsertJ]
              by_cases h1 : strLt k k' = true
              · rw [if_pos h1, if_pos h1]
                rw [decodeMembers_cons, hn, decodeMembers_cons, hx, ht]
              · rw [if_neg h1, if_neg h1]
                by_cases h2 : k = k'
                · rw [if_pos h2, if_pos h2]
                  rw [decodeMembers_cons, hn, ht]
                · rw [if_neg h2, if_neg h2]
                  rw [decodeMembers_cons, hx, ih tl ht]

theorem getElem?_append_lt {α : Type} (l r : List α) (j : Nat)
    (h : j < l.length) : (l ++ r)[j]? = l[j]? := by
  rw [List.getElem?_append, if_pos h]

theorem lt_of_getElem?_some {α : Type} {l : List α} {j : Nat} {w : α}
    (h : l[j]? = some w) : j < l.length :=
  (List.getElem?_eq_some.mp h).1

theorem getElem?_some_of_lt {α : Type} {l : List α} {j : Nat}
    (h : j < l.length) : ∃ w, l[j]? = some w :=
  ⟨l[j], List.getElem?_eq_getElem h⟩

theorem getElem?_set_self_of_lt {α : Type} (l : List α) (i : Nat) (a : α)
    (h : i < l.length) : (l.set i a)[i]? = some a := by
  simp [List.getElem?_set_self, h]

theorem decode_obj (nodes : List GraphValue) (d nid : Nat)
    (ms : List (String × Nat)) (h : nodes[nid]? = some (.obj ms)) :
    decode nodes (d + 1) nid = (decodeMembers nodes d ms).map .obj := by
  simp [decode, h, decodeMembers]

theorem decode_arr (nodes : List GraphValue) (d nid : Nat) (ids : List Nat)
    (h : nodes[nid]? = some (.arr ids)) :
    decode nodes (d + 1) nid = (decodeElemsL nodes d ids).map .arr := by
  simp [decode, h, decodeElemsL]

theorem parse_noref_spec :
    ∀ gas : Nat,
      (∀ (root t : JsonValue) (p : String) (st : PState),
        noRefB t = true →
        3 * jsize t ≤ gas →
        (∀ q ∈ pathsOf p t, lookupResolved st q = none) →
        (pathsOf p t).Nodup →
        ∃ st' : PState,
          parseNode root t p st gas = .ok (st.nodes.length, st') ∧
          nodesPreserved st st' ∧
          st.nodes.length < st'.nodes.length ∧
          (∀ q, q ∉ pathsOf p t →
            lookupResolved st' q = lookupResolved st q) ∧
          (∀ df, jsize t ≤ df → ∀ nodesX,
            agreeFrom st.nodes.length st'.nodes nodesX →
            decode nodesX df st.nodes.length = some (sortDoc t))) ∧
      (∀ (nid : Nat) (root t : JsonValue) (p : String) (st : PState),
        noRefB t = true →
        3 * jsize t ≤ gas + 1 →
        nid < st.nodes.length →
        st.nodes[nid]? = some .empty →
        (∀ q ∈ pathsInner p t, lookupResolved st q = none) →
        (pathsInner p t).Nodup →
        ∃ st' : PState,
          parseNodeInto nid root t p st gas = .ok st' ∧
          (∀ (j : Nat) (w : GraphValue), j ≠ nid → st.nodes[j]? = some w →
            st'.nodes[j]? = some w) ∧
          st.nodes.length ≤ st'.nodes.length ∧
          (∀ q, q ∉ pathsInner p t →
            lookupResolved st' q = lookupResolved st q) ∧
          (∀ df, jsize t ≤ df → ∀ nodesX,
            nodesX[nid]? = st'.nodes[nid]? →
            agreeFrom st.nodes.length st'.nodes nodesX →
            decode nodesX df nid = some (sortDoc t))) ∧
      (∀ (root : JsonValue) (ms : List (String × JsonValue)) (p : String)
          (acc : List (String × Nat)) (st : PState),
        noRefMembers ms = true →
        3 * jsizeMembers ms + 1 ≤ gas →
        (∀ q ∈ pathsMembers p ms, lookupResolved st q = none) →
        (pathsMembers p ms).Nodup →
        ∃ (o : List (String × Nat)) (st' : PState),
          parseMembers root ms p acc st gas = .ok (o, st') ∧
          nodesPreserved st st' ∧
          st.nodes.length ≤ st'.nodes.length ∧
          (∀ q, q ∉ pathsMembers p ms →
            lookupResolved st' q = lookupResolved st q) ∧
          (∀ df, jsizeMembers ms ≤ df → ∀ nodesX,
            agreeFrom st.nodes.length st'.nodes nodesX →
            ∀ accJ, decodeMembers nodesX df acc = some accJ →
              decodeMembers nodesX df o = some (sortMembers ms accJ))) ∧
      (∀ (root : JsonValue) (xs : List JsonValue) (i : Nat) (p : String)
          (acc : List Nat) (st : PState),
        noRefElems xs = true →
        3 * jsizeElems xs + 1 ≤ gas →
        (∀ q ∈ pathsElems p i xs, lookupResolved st q = none) →
        (pathsElems p i xs).Nodup →
        ∃ (ids : List Nat) (st' : PState),
          parseElems root xs i p acc st gas = .ok (ids, st') ∧
          nodesPreserved st st' ∧
          st.nodes.length ≤ st'.nodes.length ∧
          (∀ q, q ∉ pathsElems p i xs →
            lookupResolved st' q = lookupResolved st q) ∧
          (∀ df, jsizeElems xs ≤ df → ∀ nodesX,
            agreeFrom st.nodes.length st'.nodes nodesX →
            ∀ accJ, decodeElemsL nodesX df acc = some accJ →
              decodeElemsL nodesX df ids = some (accJ ++ sortElems xs))) := by
  intro gas
  induction gas with
  | zero =>
      refine ⟨?_, ?_, ?_, ?_⟩
      · intro root t p st _ hg _ _
        have := jsize_pos t
        omega
      · intro nid root t p st _ hg _ _ _ _
        have := jsize_pos t
        omega
      · intro root ms p acc st _ hg _ _
        omega
      · intro root xs i p acc st _ hg _ _
        omega
  | succ G ih =>
      obtain ⟨ihNode, ihInto, ihMembers, ihElems⟩ := ih
      refine ⟨?_, ?_, ?_, ?_⟩
      -- parseNode
      · intro root t p st hnr hg hnone hnd
        have hponce : pathsOf p t = p :: pathsInner p t := rfl
        rw [hponce] at hnone hnd
        have hlp : lookupResolved st p = none :=
          hnone p (List.mem_cons_self p _)
        rw [List.nodup_cons] at hnd
        obtain ⟨hpnotin, hndInner⟩ := hnd
        have hl1 : List.lookup p
            ({ st with nodes := st.nodes ++ [GraphValue.empty] } : PState).resolved
            = none := hlp
        obtain ⟨st3, hrun, hpres, hlen, hlook, hdec⟩ :=
          ihInto st.nodes.length root t p
            ⟨st.nodes ++ [GraphValue.empty], (p, st.nodes.length) :: st.resolved⟩
            hnr (by omega)
            (by simp)
            (by simpa using List.getElem?_concat_length st.nodes GraphValue.empty)
            (by
              intro q hq
              have hqne : q ≠ p := fun he => hpnotin (he ▸ hq)
              show List.lookup q ((p, st.nodes.length) :: st.resolved) = none
              rw [lookup_cons_ne q p st.nodes.length st.resolved hqne]
              exact hnone q (List.mem_cons_of_mem p hq))
            hndInner
        refine ⟨st3, ?_, ?_, ?_, ?_, ?_⟩
        · simp only [parseNode, hlp, noRef_parseJsonReference t hnr, alloc]
          rw [insertResolved_fresh p st.nodes.length _ hl1]
          rw [hrun]
        · intro j w hj
          have hjlt : j < st.nodes.length := lt_of_getElem?_some hj
          have h2 : (st.nodes ++ [GraphValue.empty])[j]? = some w := by
            rw [getElem?_append_lt st.nodes [GraphValue.empty] j hjlt]
            exact hj
          exact hpres j w (by omega) h2
        · have hstep : (PState.mk (st.nodes ++ [GraphValue.empty])
              ((p, st.nodes.length) :: st.resolved)).nodes.length =
              st.nodes.length + 1 := by simp
          omega
        · intro q hq
          rw [hponce] at hq
          have hqne : q ≠ p := fun he => hq (he ▸ List.mem_cons_self p _)
          have hqinner : q ∉ pathsInner p t :=
            fun hin => hq (List.mem_cons_of_mem p hin)
          rw [hlook q hqinner]
          show List.lookup q ((p, st.nodes.length) :: st.resolved) =
            lookupResolved st q
          exact lookup_cons_ne q p st.nodes.length st.resolved hqne
        · intro df hdf nodesX hagree
          have hlen3 : st.nodes.length < st3.nodes.length := by
            simp at hlen
            omega
          obtain ⟨w', hw'⟩ := getElem?_some_of_lt
            (l := st3.nodes) (j := st.nodes.length) hlen3
          refine hdec df hdf nodesX ?_ ?_
          · rw [hw']
            exact hagree st.nodes.length w' (Nat.le_refl _) hw'
          · intro j w hjge hj
            exact hagree j w (by simp at hjge ⊢; omega) hj
      -- parseNodeInto
      · intro nid root t p st hnr hg hnid hempty hnone hnd
        cases t with
        | null =>
            refine ⟨st, rfl, ?_, Nat.le_refl _, ?_, ?_⟩
            · intro j w _ hj
              exact hj
            · intro q _
              rfl
            · intro df hdf nodesX hX _
              cases df with
              | zero => simp [jsize] at hdf
              | succ d =>
                  rw [hempty] at hX
                  simp [decode, hX, sortDoc]
        | bool b =>
            refine ⟨setNode nid (.bool b) st, rfl, ?_, by simp [setNode], ?_, ?_⟩
            · intro j w hj hw
              show (st.nodes.set nid (.bool b))[j]? = some w
              rw [List.getElem?_set_ne (fun he => hj he.symm)]
              exact hw
            · intro q _
              rfl
            · intro df hdf nodesX hX _
              cases df with
              | zero => simp [jsize] at hdf
              | succ d =>
                  have : (setNode nid (.bool b) st).nodes[nid]? =
                      some (.bool b) :=
                    getElem?_set_self_of_lt st.nodes nid _ hnid
                  rw [this] at hX
                  simp [decode, hX, sortDoc]
        | int n =>
            refine ⟨setNode nid (.int n) st, rfl, ?_, by simp [setNode], ?_, ?_⟩
            · intro j w hj hw
              show (st.nodes.set nid (.int n))[j]? = some w
              rw [List.getElem?_set_ne (fun he => hj he.symm)]
              exact hw
            · intro q _
              rfl
            · intro df hdf nodesX hX _
              cases df with
              | zero => simp [jsize] at hdf
              | succ d =>
                  have : (setNode nid (.int n) st).nodes[nid]? =
                      some (.int n) :=
                    getElem?_set_self_of_lt st.nodes nid _ hnid
                  rw [this] at hX
                  simp [decode, hX, sortDoc]
        | double d0 =>
            refine ⟨setNode nid (.double d0) st, rfl, ?_, by simp [setNode], ?_, ?_⟩
            · intro j w hj hw
              show (st.nodes.set nid (.double d0))[j]? = some w
              rw [List.getElem?_set_ne (fun he => hj he.symm)]
              exact hw
            · intro q _
              rfl
            · intro df hdf nodesX hX _
              cases df with
              | zero => simp [jsize] at hdf
              | succ d =>
                  have : (setNode nid (.double d0) st).nodes[nid]? =
                      some (.double d0) :=
                    getElem?_set_self_of_lt st.nodes nid _ hnid
                  rw [this] at hX
                  simp [decode, hX, sortDoc]
        | str s =>
            refine ⟨setNode nid (.str s) st, rfl, ?_, by simp [setNode], ?_, ?_⟩
            · intro j w hj hw
              show (st.nodes.set nid (.str s))[j]? = some w
              rw [List.getElem?_set_ne (fun he => hj he.symm)]
              exact hw
            · intro q _
              rfl
            · intro df hdf nodesX hX _
              cases df with
              | zero => simp [jsize] at hdf
              | succ d =>
                  have : (setNode nid (.str s) st).nodes[nid]? =
                      some (.str s) :=
                    getElem?_set_self_of_lt st.nodes nid _ hnid
                  rw [this] at hX
                  simp [decode, hX, sortDoc]
        | obj ms =>
            have hnrm : noRefMembers ms = true := by
              simpa [noRefB] using hnr
            have hjs : jsize (JsonValue.obj ms) = 1 + jsizeMembers ms := rfl
            obtain ⟨o, stM, hrunM, hpresM, hlenM, hlookM, hdecM⟩ :=
              ihMembers root ms p [] st hnrm (by omega)
                (by
                  intro q hq
                  exact hnone q (by simpa [pathsInner] using hq))
                (by simpa [pathsInner] using hnd)
            refine ⟨setNode nid (.obj o) stM, ?_, ?_, ?_, ?_, ?_⟩
            · simp only [parseNodeInto]
              rw [hrunM]
            · intro j w hj hw
              show (stM.nodes.set nid (.obj o))[j]? = some w
              rw [List.getElem?_set_ne (fun he => hj he.symm)]
              exact hpresM j w hw
            · simp [setNode]
              omega
            · intro q hq
              show List.lookup q stM.resolved = lookupResolved st q
              exact hlookM q (by simpa [pathsInner] using hq)
            · intro df hdf nodesX hX hagree
              cases df with
              | zero => simp [jsize] at hdf
              | succ d =>
                  have hset : (setNode nid (.obj o) stM).nodes[nid]? =
                      some (.obj o) :=
                    getElem?_set_self_of_lt stM.nodes nid _ (by omega)
                  rw [hset] at hX
                  rw [decode_obj nodesX d nid o hX]
                  have hagreeM : agreeFrom st.nodes.length stM.nodes nodesX := by
                    intro j w hjge hj
                    refine hagree j w hjge ?_
                    show (stM.nodes.set nid (.obj o))[j]? = some w
                    rw [List.getElem?_set_ne (by omega)]
                    exact hj
                  have := hdecM d (by
                      rw [hjs] at hdf
                      omega) nodesX hagreeM [] (decodeMembers_nil nodesX d)
                  rw [this]
                  simp [sortDoc]
        | arr xs =>
            have hnre : noRefElems xs = true := by
              simpa [noRefB] using hnr
            have hjs : jsize (JsonValue.arr xs) = 1 + jsizeElems xs := rfl
            obtain ⟨ids, stM, hrunM, hpresM, hlenM, hlookM, hdecM⟩ :=
              ihElems root xs 0 p [] st hnre (by omega)
                (by
                  intro q hq
                  exact hnone q (by simpa [pathsInner] using hq))
                (by simpa [pathsInner] using hnd)
            refine ⟨setNode nid (.arr ids) stM, ?_, ?_, ?_, ?_, ?_⟩
            · simp only [parseNodeInto]
              rw [hrunM]
            · intro j w hj hw
              show (stM.nodes.set nid (.arr ids))[j]? = some w
              rw [List.getElem?_set_ne (fun he => hj he.symm)]
              exact hpresM j w hw
            · simp [setNode]
              omega
            · intro q hq
              show List.lookup q stM.resolved = lookupResolved st q
              exact hlookM q (by simpa [pathsInner] using hq)
            · intro df hdf nodesX hX hagree
              cases df with
              | zero => simp [jsize] at hdf
              | succ d =>
                  have hset : (setNode nid (.arr ids) stM).nodes[nid]? =
                      some (.arr ids) :=
                    getElem?_set_self_of_lt stM.nodes nid _ (by omega)
                  rw [hset] at hX
                  rw [decode_arr nodesX d nid ids hX]
                  have hagreeM : agreeFrom st.nodes.length stM.nodes nodesX := by
                    intro j w hjge hj
                    refine hagree j w hjge ?_
                    show (stM.nodes.set nid (.arr ids))[j]? = some w
                    rw [List.getElem?_set_ne (by omega)]
                    exact hj
                  have := hdecM d (by
                      rw [hjs] at hdf
                      omega) nodesX hagreeM [] (decodeElemsL_nil nodesX d)
                  rw [this]
                  simp [sortDoc]
      -- parseMembers
      · intro root ms p acc st hnr hg hnone hnd
        cases ms with
        | nil =>
            refine ⟨acc, st, rfl, fun j w hj => hj, Nat.le_refl _, ?_, ?_⟩
            · intro q _
              rfl
            · intro df _ nodesX _ accJ hacc
              simpa [sortMembers] using hacc
        | cons hd rest =>
            obtain ⟨k, c⟩ := hd
            have hsplit : noRefB c = true ∧ noRefMembers rest = true := by
              simp only [noRefMembers, Bool.and_eq_true] at hnr
              exact ⟨hnr.1.2, hnr.2⟩
            have hjm : jsizeMembers ((k, c) :: rest) =
                1 + jsize c + jsizeMembers rest := rfl
            have hpaths : pathsMembers p ((k, c) :: rest) =
                pathsOf (p ++ "/" ++ k) c ++ pathsMembers p rest := rfl
            rw [hpaths] at hnone hnd
            have hdisj := List.disjoint_of_nodup_append hnd
            obtain ⟨st1, hrun1, hpres1, hlen1, hlook1, hdec1⟩ :=
              ihNode root c (p ++ "/" ++ k) st hsplit.1
                (by rw [hjm] at hg; omega)
                (fun q hq => hnone q (List.mem_append_left _ hq))
                (List.Nodup.of_append_left hnd)
            obtain ⟨o, st2, hrun2, hpres2, hlen2, hlook2, hdec2⟩ :=
              ihMembers root rest p (objInsert k st.nodes.length acc) st1
                hsplit.2
                (by rw [hjm] at hg; omega)
                (by
                  intro q hq
                  rw [hlook1 q (fun hin => hdisj hin hq)]
                  exact hnone q (List.mem_append_right _ hq))
                (List.Nodup.of_append_right hnd)
            refine ⟨o, st2, ?_, ?_, ?_, ?_, ?_⟩
            · simp only [parseMembers]
              rw [hrun1]
              exact hrun2
            · intro j w hj
              exact hpres2 j w (hpres1 j w hj)
            · omega
            · intro q hq
              rw [hlook2 q (fun hin => hq (List.mem_append_right _ hin))]
              exact hlook1 q (fun hin => hq (List.mem_append_left _ hin))
            · intro df hdf nodesX hagree accJ hacc
              have hagree1 : agreeFrom st.nodes.length st1.nodes nodesX := by
                intro j w hjge hj
                exact hagree j w hjge (hpres2 j w hj)
              have hchild : decode nodesX df st.nodes.length =
                  some (sortDoc c) :=
                hdec1 df (by rw [hjm] at hdf; omega) nodesX hagree1
              have hacc2 : decodeMembers nodesX df
                  (objInsert k st.nodes.length acc) =
                  some (objInsertJ k (sortDoc c) accJ) :=
                decodeMembers_objInsert nodesX df k st.nodes.length
                  (sortDoc c) hchild acc accJ hacc
              have hrest := hdec2 df (by rw [hjm] at hdf; omega) nodesX
                (by
                  intro j w hjge hj
                  exact hagree j w (by omega) hj)
                (objInsertJ k (sortDoc c) accJ) hacc2
              rw [hrest]
              rfl
      -- parseElems
      · intro root xs i p acc st hnr hg hnone hnd
        cases xs with
        | nil =>
            refine ⟨acc, st, rfl, fun j w hj => hj, Nat.le_refl _, ?_, ?_⟩
            · intro q _
              rfl
            · intro df _ nodesX _ accJ hacc
              simpa [sortElems] using hacc
        | cons c rest =>
            have hsplit : noRefB c = true ∧ noRefElems rest = true := by
              simp only [noRefElems, Bool.and_eq_true] at hnr
              exact hnr
            have hje : jsizeElems (c :: rest) =
                1 + jsize c + jsizeElems rest := rfl
            have hpaths : pathsElems p i (c :: rest) =
                pathsOf (p ++ "/" ++ toString i) c ++
                  pathsElems p (i + 1) rest := rfl
            rw [hpaths] at hnone hnd
            have hdisj := List.disjoint_of_nodup_append hnd
            obtain ⟨st1, hrun1, hpres1, hlen1, hlook1, hdec1⟩ :=
              ihNode root c (p ++ "/" ++ toString i) st hsplit.1
                (by rw [hje] at hg; omega)
                (fun q hq => hnone q (List.mem_append_left _ hq))
                (List.Nodup.of_append_left hnd)
            obtain ⟨ids, st2, hrun2, hpres2, hlen2, hlook2, hdec2⟩ :=
              ihElems root rest (i + 1) p (acc ++ [st.nodes.length]) st1
                hsplit.2
                (by rw [hje] at hg; omega)
                (by
                  intro q hq
                  rw [hlook1 q (fun hin => hdisj hin hq)]
                  exact hnone q (List.mem_append_right _ hq))
                (List.Nodup.of_append_right hnd)
            refine ⟨ids, st2, ?_, ?_, ?_, ?_, ?_⟩
            · simp only [parseElems]
              rw [hrun1]
              exact hrun2
            · intro j w hj
              exact hpres2 j w (hpres1 j w hj)
            · omega
            · intro q hq
              rw [hlook2 q (fun hin => hq (List.mem_append_right _ hin))]
              exact hlook1 q (fun hin => hq (List.mem_append_left _ hin))
            · intro df hdf nodesX hagree accJ hacc
              have hagree1 : agreeFrom st.nodes.length st1.nodes nodesX := by
                intro j w hjge hj
                exact hagree j w hjge (hpres2 j w hj)
              have hchild : decode nodesX df st.nodes.length =
                  some (sortDoc c) :=
                hdec1 df (by rw [hje] at hdf; omega) nodesX hagree1
              have hacc2 : decodeElemsL nodesX df (acc ++ [st.nodes.length]) =
                  some (accJ ++ [sortDoc c]) :=
                decodeElemsL_append_one nodesX df acc st.nodes.length accJ
                  (sortDoc c) hacc hchild
              have hrest := hdec2 df (by rw [hje] at hdf; omega) nodesX
                (by
                  intro j w hjge hj
                  exact hagree j w (by omega) hj)
                (accJ ++ [sortDoc c]) hacc2
              rw [hrest]
              simp [sortElems]

/-- C1: the claim requires the adapter view of a `$ref`-free document to
preserve member order.  Parsing `{"b": true, "a": false}` and traversing the
result yields `{"a": false, "b": true}` — the members come back in
`std::map` key order, which differs from the source order. -/
theorem C1_traversal_member_order_counterexample :
    parseDocument (.obj [("b", .bool true), ("a", .bool false)]) 20 =
      .ok (0, ⟨[.obj [("a", 2), ("b", 1)], .bool true, .bool false],
               [("/a", 2), ("/b", 1), ("", 0)]⟩) ∧
    decode [.obj [("a", 2), ("b", 1)], .bool true, .bool false] 2 0 =
      some (.obj [("a", .bool false), ("b", .bool true)]) ∧
    JsonValue.obj [("a", .bool false), ("b", .bool true)] ≠
      .obj [("b", .bool true), ("a", .bool false)] :=
  ⟨rfl, rfl, by simp⟩

/-- C1 (amended): for every document with no `$ref` member anywhere and
with pairwise-distinct canonical paths (no member key containing `/` can
collide with another position's path, and no duplicate keys), parsing
succeeds and the adapter traversal of the graph returns exactly the source
document with every object's members re-ordered into ascending
lexicographic key order; kinds, scalar values, and array element order are
preserved exactly. -/
theorem C1_noref_traversal_is_key_sorted_source :
    ∀ doc : JsonValue, noRefB doc = true → (pathsOf "" doc).Nodup →
      ∃ st' : PState,
        parseDocument doc (3 * jsize doc) = .ok (0, st') ∧
        decode st'.nodes (jsize doc) 0 = some (sortDoc doc) := by
  intro doc hnr hnd
  obtain ⟨st', hrun, _, _, _, hdec⟩ :=
    (parse_noref_spec (3 * jsize doc)).1 doc doc "" ⟨[], []⟩ hnr
      (Nat.le_refl _) (fun q _ => rfl) hnd
  exact ⟨st', hrun,
    hdec (jsize doc) (Nat.le_refl _) st'.nodes (fun j w _ h => h)⟩

/-- C1 witness: the amended statement applied to the concrete document
`{"b": true, "a": null}`. -/
theorem C1_noref_traversal_is_key_sorted_source_witness :
    noRefB (.obj [("b", .bool true), ("a", .null)]) = true ∧
    (pathsOf "" (.obj [("b", .bool true), ("a", .null)])).Nodup ∧
    ∃ st' : PState,
      parseDocument (.obj [("b", .bool true), ("a", .null)])
          (3 * jsize (.obj [("b", .bool true), ("a", .null)])) =
        .ok (0, st') ∧
      decode st'.nodes (jsize (.obj [("b", .bool true), ("a", .null)])) 0 =
        some (sortDoc (.obj [("b", .bool true), ("a", .null)])) :=
  ⟨rfl, by decide,
   C1_noref_traversal_is_key_sorted_source
     (.obj [("b", .bool true), ("a", .null)]) rfl (by decide)⟩
